import Mathlib

/-!
# Verification of the `py2assembly` converter

A shallow embedding of `py2assembly/converter.py`, the Python → Sigma16
assembly translator, together with proofs about its behaviour.

Modelling conventions:

* The restricted Python AST consumed by the converter (`ast.Module`,
  `ast.Assign`, `ast.BinOp`, `ast.Compare`, `ast.If`, `ast.While`,
  `ast.For`, `ast.Name`, `ast.Constant`) is embedded as the inductive
  types `Expr` / `Stmt` below.  Only the node fields the converter reads
  are retained (in particular expression nodes carry no line number: the
  converter never uses one — `Converter.comment` computes `line_number`
  but drops it).
* Python exceptions become the `PyError` sum returned through `Except`.
* `ExtraData` is the converter's context object.  Python mutates it
  through aliased references; the embedding passes it by value and
  reproduces the aliasing discipline explicitly: `copy.copy` shares the
  `memory_data` dict (so a child's `memory_data` writes are visible to
  the caller) while `copy.deepcopy` severs it.  The function
  `callerAfter` states, per statement kind, what the caller's object
  looks like after a child lowering returns (see its docstring).
* The recursion of `convert_any` is not structural (converting a `for`
  synthesises and lowers a fresh `while` node), so the recursive
  statement converters take a fuel argument; `stmtSize` computes a
  sufficient fuel and the fuel-irrelevance lemmas below show the choice
  of fuel does not matter.
-/

/-- The Python exception kinds raised by `converter.py`
(`NotImplementedError`, `ValueError`, `TypeError`).  Message strings are
kept where they are fixed text in the source; messages that interpolate
the `repr` of AST objects are abbreviated to their fixed prefix. -/
inductive PyError where
  | notImplementedError (msg : String)
  | valueError (msg : String)
  | typeError (msg : String)
deriving DecidableEq, Repr

/-- Binary arithmetic operator nodes: `ast.Add`, `ast.Sub`, `ast.Mult`,
`ast.Div` (the four operators `convert_binop` accepts). -/
inductive BOp where
  | add
  | sub
  | mult
  | div
deriving DecidableEq, Repr

/-- Comparison operator nodes: `ast.Gt`, `ast.GtE`, `ast.Lt`, `ast.LtE`
(the four operators `convert_compare` accepts). -/
inductive CmpOp where
  | gt
  | gtE
  | lt
  | ltE
deriving DecidableEq, Repr

/-- Expression nodes.  `name` is `ast.Name` (with its `id`), `const` is
`ast.Constant` restricted to the integer constants the converter
supports, `binOp` is `ast.BinOp` and `compare` is `ast.Compare` with its
parallel `ops` / `comparators` lists. -/
inductive Expr where
  | name (id : String)
  | const (value : Int)
  | binOp (left : Expr) (op : BOp) (right : Expr)
  | compare (left : Expr) (ops : List CmpOp) (comparators : List Expr)

/-- The `iter` field of an `ast.For`: either a `range(...)` call whose
arguments are integer literals, or any other iterator expression (kept
abstract: `convert_for` immediately raises `NotImplementedError` with
the iterator's type). -/
inductive ForIter where
  | rangeCall (args : List Int)
  | nonRange (typeName : String)

/-- Statement nodes: `ast.Assign`, `ast.If`, `ast.While`, `ast.For`.
Each carries its source line number (`lineno`), which the converter uses
to derive label names. -/
inductive Stmt where
  | assign (lineno : Nat) (targets : List Expr) (value : Expr)
  | ifStmt (lineno : Nat) (test : Expr) (body : List Stmt)
  | whileStmt (lineno : Nat) (test : Expr) (body : List Stmt)
  | forStmt (lineno : Nat) (target : String) (iter : ForIter) (body : List Stmt)

/-- Rendering of an arithmetic operator by `ast.unparse`. -/
def bopSymbol : BOp → String
  | .add => "+"
  | .sub => "-"
  | .mult => "*"
  | .div => "/"

/-- Rendering of a comparison operator by `ast.unparse`. -/
def cmpSymbol : CmpOp → String
  | .gt => ">"
  | .gtE => ">="
  | .lt => "<"
  | .ltE => "<="

mutual

/-- `ast.unparse` on the expression fragment the converter handles;
used to reproduce the source text in assembly comments. -/
def unparseExpr : Expr → String
  | .name id => id
  | .const v => toString v
  | .binOp l op r => unparseExpr l ++ " " ++ bopSymbol op ++ " " ++ unparseExpr r
  | .compare l ops comps => unparseExpr l ++ unparseCmpTail ops comps

/-- The ` <op> <comparator>` tail chain of an unparsed comparison. -/
def unparseCmpTail : List CmpOp → List Expr → String
  | o :: os, c :: cs => " " ++ cmpSymbol o ++ " " ++ unparseExpr c ++ unparseCmpTail os cs
  | _, _ => ""

end

/-- `ast.unparse` of an `ast.Assign` node: the targets and the value
joined by `" = "`. -/
def unparseAssign (targets : List Expr) (value : Expr) : String :=
  String.intercalate " = " ((targets ++ [value]).map unparseExpr)

/-- The converter context (`ExtraData` in the source, an `attrs` class):
the memory table (an insertion-ordered name → initial-value dict), the
locked register set, the pinned target register (`-1` when unset) and
the current label triple.  Field defaults mirror the `attrs` defaults. -/
structure ExtraData where
  memory_data : List (String × Int) := []
  locked_registers : List Int := []
  target_register : Int := -1
  if_true_label : String := ""
  if_done_label : String := ""
  loop_start_label : String := ""
deriving DecidableEq, Repr

/-- Ordered-dict lookup (`dict.get` / the `in` test). -/
def dictLookup : List (String × Int) → String → Option Int
  | [], _ => none
  | (k, v) :: rest, key => if k == key then some v else dictLookup rest key

/-- Python's `{**a, **b}` on insertion-ordered dicts: the keys of `a`
first (each taking `b`'s value when `b` also has the key), then the keys
only `b` has, in `b`'s order. -/
def dictMerge (a b : List (String × Int)) : List (String × Int) :=
  a.map (fun kv => (kv.1, (dictLookup b kv.1).getD kv.2)) ++
    b.filter (fun kv => (dictLookup a kv.1).isNone)

/-- The register pool scanned by `get_available_register`:
`range(1, 15)` — register 0 is never considered. -/
def regPool : List Int := [1, 2, 3, 4, 5, 6, 7, 8, 9, 10, 11, 12, 13, 14]

/-- The scan inside `get_available_register`: return the first pool
index that is neither locked nor the pinned target register; the
`for`/`else` raises `NotImplementedError` when the pool is exhausted. -/
def garAux (locked : List Int) (target : Int) : List Int → Except PyError Int
  | [] => .error (.notImplementedError "All registers are already in use.")
  | i :: rest =>
    if i ∈ locked then garAux locked target rest
    else if i = target then garAux locked target rest
    else .ok i

/-- `ExtraData.get_available_register`: picks the first free register
and locks it (the Python method mutates `self.locked_registers`; here
the updated context is returned alongside the register). -/
def ExtraData.get_available_register (e : ExtraData) :
    Except PyError (Int × ExtraData) :=
  match garAux e.locked_registers e.target_register regPool with
  | .error err => .error err
  | .ok i => .ok (i, { e with locked_registers := e.locked_registers ++ [i] })

/-- `ExtraData.__add__`: a fresh `ExtraData` holding only the merged
`memory_data`; every other field takes its default again. -/
def ExtraData.add (a b : ExtraData) : ExtraData :=
  { memory_data := dictMerge a.memory_data b.memory_data }

/-- Python's `f'{s:<{width}}'`: left-justify in `width` columns (never
truncating). -/
def padRight (s : String) (width : Nat) : String :=
  s ++ String.mk (List.replicate (width - s.length) ' ')

/-- `Converter.comment`: format one assembly line with its trailing
source comment, `f'{assembly_code:<{width}}; {comment}'` where
`width = 40 - indent`.  (The computed `line_number` is discarded by the
source as well.) -/
def Converter.comment (assembly_code : String) (comment : String)
    (indent : Int := 0) : String :=
  padRight assembly_code (40 - indent).toNat ++ "; " ++ comment

/-- Operand test used by `convert_binop`:
`isinstance(x, (ast.Name, ast.Constant))`. -/
def Expr.isLeaf : Expr → Bool
  | .name _ => true
  | .const _ => true
  | _ => false

/-- The load instruction `convert_binop` emits for one operand:
`load R<r>,<id>` for a `Name`, `lea R<r>,<value>` for a `Constant`.
The final case is unreachable behind the `isLeaf` checks (the source
raises `NotImplementedError` there). -/
def leafInstr : Expr → Int → String
  | .name id, r => "load R" ++ toString r ++ "," ++ id
  | .const v, r => "lea R" ++ toString r ++ "," ++ toString v
  | _, _ => ""

/-- The mnemonic `convert_binop` selects for each operator. -/
def bopName : BOp → String
  | .add => "add"
  | .sub => "sub"
  | .mult => "mul"
  | .div => "div"

/-- `Converter.convert_binop`.  Order of effects mirrors the source: the
(shallow-copied) context first allocates a target register when none is
pinned, then the operand shape checks run (the operator check cannot
fail here because `BOp` has exactly the four supported cases), then the
left and the right staging registers are allocated in that order, and
three commented instructions are emitted. -/
def convert_binop (left : Expr) (op : BOp) (right : Expr)
    (extra0 : ExtraData) : Except PyError (List String × ExtraData) :=
  match (if extra0.target_register = -1 then
           match extra0.get_available_register with
           | .error err => .error err
           | .ok (r, e) => .ok { e with target_register := r }
         else .ok extra0 : Except PyError ExtraData) with
  | .error err => .error err
  | .ok extra1 =>
    if left.isLeaf = false then .error (.notImplementedError "")
    else if right.isLeaf = false then .error (.notImplementedError "")
    else
      match extra1.get_available_register with
      | .error err => .error err
      | .ok (left_register, extra2) =>
        match extra2.get_available_register with
        | .error err => .error err
        | .ok (right_register, extra3) =>
          .ok ([Converter.comment (leafInstr left left_register)
                  (unparseExpr (.binOp left op right)),
                Converter.comment (leafInstr right right_register)
                  (unparseExpr (.binOp left op right)),
                Converter.comment (bopName op ++ " R" ++ toString extra3.target_register
                    ++ ",R" ++ toString left_register ++ ",R" ++ toString right_register)
                  (unparseExpr (.binOp left op right))],
               extra3)

/-- The operand loads of `convert_compare` (lines 189-205 of the
source): `load` for a `Name`, `lea` for a `Constant`, and the raised
`NotImplementedError` for anything else. -/
def loadOperand (e : Expr) (reg : Int) (bad : PyError) : Except PyError String :=
  match e with
  | .name id => .ok ("load R" ++ toString reg ++ "," ++ id)
  | .const v => .ok ("lea R" ++ toString reg ++ "," ++ toString v)
  | _ => .error bad

/-- The conditional-branch mnemonic `convert_compare` selects. -/
def jumpName : CmpOp → String
  | .gt => "jumpgt "
  | .gtE => "jumpge "
  | .lt => "jumplt "
  | .ltE => "jumple "

/-- `Converter.convert_compare`.  Two registers are allocated up front,
then the left operand, the single comparator (arity-checked first) and
the single operator (arity-checked after the `cmp` is emitted) are
processed; the branch targets come from the context's label fields.
The Python arity errors interpolate `repr(obj.ops)`; the message is
abbreviated to its fixed prefix here. -/
def convert_compare (left : Expr) (ops : List CmpOp) (comparators : List Expr)
    (extra0 : ExtraData) : Except PyError (List String × ExtraData) :=
  match extra0.get_available_register with
  | .error err => .error err
  | .ok (left_register, extra1) =>
    match extra1.get_available_register with
    | .error err => .error err
    | .ok (right_register, extra2) =>
      match loadOperand left left_register
          (.notImplementedError "type of compare left operand") with
      | .error err => .error err
      | .ok c1 =>
        match comparators with
        | [comparator] =>
          match loadOperand comparator right_register
              (.notImplementedError "type of comparators") with
          | .error err => .error err
          | .ok c2 =>
            match ops with
            | [op] =>
              .ok ([c1, c2,
                    "cmp R" ++ toString left_register ++ ",R" ++ toString right_register,
                    jumpName op ++ extra2.if_true_label,
                    "jump " ++ extra2.if_done_label], extra2)
            | _ => .error (.valueError "Only support 1 operator.")
        | _ => .error (.valueError "Only support 1 operator.")

/-- The target check of `convert_assign` (lines 255-259): every target
must be a `Name`; the ids are collected in order, and the first
non-`Name` target raises `NotImplementedError`. -/
def targetIds : List Expr → Except PyError (List String)
  | [] => .ok []
  | .name id :: rest =>
    match targetIds rest with
    | .error err => .error err
    | .ok ids => .ok (id :: ids)
  | _ :: _ => .error (.notImplementedError "")

/-- `Converter.convert_assign`.  All targets must be `Name`s.  A
constant value updates the memory table when the name is new and emits a
`lea`/`store` pair when the name already exists; a `BinOp` value is
lowered and its target register stored to every target (defaulting the
memory entry to 0); anything else raises `NotImplementedError`.  (The
integer check on the constant cannot fail here: `Expr.const` carries an
`Int` by construction.) -/
def convert_assign (targets : List Expr) (value : Expr) (extra : ExtraData) :
    Except PyError (List String × ExtraData) :=
  match targetIds targets with
  | .error err => .error err
  | .ok left_values =>
    match value with
    | .const c =>
        let res := left_values.foldl (fun acc name =>
          if (dictLookup acc.2 name).isSome then
            (acc.1 ++ [Converter.comment ("lea R1," ++ toString c) (unparseAssign targets value),
                       Converter.comment ("store R1," ++ name) (unparseAssign targets value)],
             acc.2)
          else (acc.1, acc.2 ++ [(name, c)]))
          (([], extra.memory_data) : List String × List (String × Int))
        .ok (res.1, { extra with memory_data := res.2 })
    | .binOp l op r =>
        match convert_binop l op r extra with
        | .error err => .error err
        | .ok (sub_code, sub_extra) =>
          let res := left_values.foldl (fun acc name =>
            (acc.1 ++ [Converter.comment
                ("store R" ++ toString sub_extra.target_register ++ "," ++ name)
                (unparseAssign targets value)],
             if (dictLookup acc.2 name).isSome then acc.2 else acc.2 ++ [(name, 0)]))
            (([], extra.memory_data) : List String × List (String × Int))
          .ok (sub_code ++ res.1, { extra with memory_data := res.2 })
    | _ => .error (.notImplementedError "")

/-- Expression dispatch of `Converter.convert_any`: `BinOp` and
`Compare` have converters; `Name` / `Constant` do not, so dispatch
raises `TypeError('No convert method ...')`. -/
def convert_any_expr (e : Expr) (extra : ExtraData) :
    Except PyError (List String × ExtraData) :=
  match e with
  | .binOp l op r => convert_binop l op r extra
  | .compare l ops comps => convert_compare l ops comps extra
  | .name _ => .error (.typeError "No convert method convert_name")
  | .const _ => .error (.typeError "No convert method convert_constant")

/-- The caller's view of its own context object after a child statement
lowering returns, reproducing Python's aliasing: `convert_assign`
mutates the caller's `memory_data` dict in place, and `convert_if`'s
`copy.copy` shares that dict, so their `memory_data` writes are visible
to the caller; `convert_while` and `convert_for` take a `copy.deepcopy`,
so nothing they do is visible.  No child ever changes the caller's other
fields. -/
def callerAfter (s : Stmt) (before ret : ExtraData) : ExtraData :=
  match s with
  | .whileStmt _ _ _ => before
  | .forStmt _ _ _ _ => before
  | _ => { before with memory_data := ret.memory_data }

mutual

/-- Fuel sufficient to lower one statement (an upper bound on the
recursion depth of `convert_any`, accounting for the `while` node the
`for` case synthesises). -/
def stmtSize : Stmt → Nat
  | .assign _ _ _ => 1
  | .ifStmt _ _ body => 1 + bodySize body
  | .whileStmt _ _ body => 1 + bodySize body
  | .forStmt _ _ _ body => 5 + bodySize body

/-- Fuel sufficient to lower a statement list. -/
def bodySize : List Stmt → Nat
  | [] => 0
  | s :: rest => 1 + stmtSize s + bodySize rest

end

mutual

/-- Statement dispatch of `Converter.convert_any`, fuelled.  The
`ifStmt` case is `convert_if`, the `whileStmt` case `convert_while` and
the `forStmt` case `convert_for` from the source; `convert_for` rewrites
the loop into the synthetic `<target> = <start>` assignment (inheriting
the `for`'s line number) and a `while` on `<target> < <stop>` (likewise)
whose body is the original body plus the increment assignment (which
keeps line number 3 from the parsed template — never used).  The
`fuel = 0` case is unreachable whenever `stmtSize` fuel is supplied (see
the fuel-irrelevance lemmas). -/
def convert_stmtF : Nat → Stmt → ExtraData → Except PyError (List String × ExtraData)
  | 0, _, _ => .error (.typeError "fuel")
  | _ + 1, .assign _ targets value, extra => convert_assign targets value extra
  | n + 1, .ifStmt lineno test body, extra => do
      let extra1 := { extra with if_true_label := "true" ++ toString lineno,
                                 if_done_label := "done" ++ toString lineno }
      let (compare_code, _) ← convert_any_expr test extra1
      let (body_code, extra2) ← convert_bodyF n body extra1
      pure (compare_code ++ ["#label " ++ extra1.if_true_label] ++ body_code
              ++ ["#label " ++ extra1.if_done_label], extra2)
  | n + 1, .whileStmt lineno test body, extra => do
      let extra1 := { extra with loop_start_label := "loop" ++ toString lineno,
                                 if_true_label := "true" ++ toString lineno,
                                 if_done_label := "done" ++ toString lineno }
      let (test_code, _) ← convert_any_expr test extra1
      let (body_code, extra2) ← convert_bodyF n body extra1
      pure (["#label " ++ extra1.loop_start_label] ++ test_code
              ++ ["#label " ++ extra1.if_true_label] ++ body_code
              ++ ["jump " ++ extra1.loop_start_label]
              ++ ["#label " ++ extra1.if_done_label], extra2)
  | n + 1, .forStmt lineno target iter body, extra =>
      match iter with
      | .rangeCall args =>
        match args with
        | [start, stop] => do
          let assign_obj : Stmt := .assign lineno [.name target] (.const start)
          let while_obj : Stmt := .whileStmt lineno
              (.compare (.name target) [.lt] [.const stop])
              (body ++ [.assign 3 [.name target]
                          (.binOp (.name target) .add (.const 1))])
          let (assign_code, e1) ← convert_stmtF n assign_obj extra
          let extraMut := callerAfter assign_obj extra e1
          let (while_code, _) ← convert_stmtF n while_obj extraMut
          pure (assign_code ++ while_code, extraMut)
        | _ => .error (.valueError "Only supports range with 2 parameters")
      | .nonRange tyName => .error (.notImplementedError tyName)

/-- The body loops of `convert_if` / `convert_while`: each statement is
lowered against the same context object; its returned context is
discarded, but its `memory_data` mutations remain visible per
`callerAfter`. -/
def convert_bodyF : Nat → List Stmt → ExtraData → Except PyError (List String × ExtraData)
  | _, [], extra => .ok ([], extra)
  | 0, _ :: _, _ => .error (.typeError "fuel")
  | n + 1, s :: rest, extra => do
      let (c, ret) ← convert_stmtF n s extra
      let (cs, e2) ← convert_bodyF n rest (callerAfter s extra ret)
      pure (c ++ cs, e2)

end

/-- Statement lowering at its canonical fuel. -/
def convert_stmt (s : Stmt) (extra : ExtraData) :
    Except PyError (List String × ExtraData) :=
  convert_stmtF (stmtSize s) s extra

/-- Statement-list lowering at its canonical fuel. -/
def convert_body (body : List Stmt) (extra : ExtraData) :
    Except PyError (List String × ExtraData) :=
  convert_bodyF (bodySize body) body extra

/-- The statement loop of `Converter.convert_module`: after each
top-level statement the running context is rebuilt as
`extra + sub_extra` (Python `extra += sub_extra`, whose left operand is
the caller's — possibly mutated — object). -/
def convert_module_aux : List Stmt → ExtraData → Except PyError (List String × ExtraData)
  | [], extra => .ok ([], extra)
  | s :: rest, extra => do
      let (c, ret) ← convert_stmt s extra
      let (cs, e2) ← convert_module_aux rest ((callerAfter s extra ret).add ret)
      pure (c ++ cs, e2)

/-- `Converter.convert_module`: ignores any incoming context and starts
from a fresh `ExtraData()`. -/
def convert_module (body : List Stmt) : Except PyError (List String × ExtraData) :=
  convert_module_aux body {}

/-- The characters of a pending-label line before its optional
`"; ..."` comment — group 1 of the regex
`^#label (.*?)(; .*?)?$` after the fixed prefix. -/
def dropCommentChars : List Char → List Char
  | [] => []
  | ';' :: ' ' :: _ => []
  | c :: rest => c :: dropCommentChars rest

/-- Character-level recognition of a `#label <name>` line. -/
def labelMatchChars : List Char → Option String
  | '#' :: 'l' :: 'a' :: 'b' :: 'e' :: 'l' :: ' ' :: rest =>
      some (String.mk (dropCommentChars rest))
  | _ => none

/-- Recognise a `#label <name>` pseudo-instruction (the regex match
`^#label (.*?)(; .*?)?$` in `assembly_code`) and extract the label
name. -/
def labelMatch (line : String) : Option String :=
  labelMatchChars line.data

/-- The label-resolution loop of `assembly_code`: a `#label` line stores
its name into the single pending slot (silently replacing whatever was
there); any other line is emitted with the pending label left-justified
into a 20-column label field, after which the slot is cleared. -/
def linearize (label : String) : List String → List String
  | [] => []
  | line :: rest =>
    match labelMatch line with
    | some l => linearize l rest
    | none => (padRight label 20 ++ line) :: linearize "" rest

/-- The fixed program terminator appended by `assembly_code`. -/
def trap_line : String := Converter.comment "trap R0,R0,R0" "stop program"

/-- `Converter.assembly_code`: lower the module, append the terminating
`trap`, resolve pending labels, then emit a blank separator and one
`<name> data <value>` line per memory entry, joined by newlines. -/
def Converter.assembly_code (body : List Stmt) : Except PyError String := do
  let (code, extra) ← convert_module body
  let temp := linearize "" (code ++ [trap_line])
  let data := extra.memory_data.map (fun kv =>
    Converter.comment (kv.1 ++ " data " ++ toString kv.2) "initial value" (-20))
  pure (String.intercalate "\n" ((temp ++ [""]) ++ data))

/-- The module-level `convert` entry point (modulo the external
`ast.parse` step, which this embedding starts after). -/
def Converter.convert (body : List Stmt) : Except PyError String :=
  Converter.assembly_code body

/-! ## Basic lemmas about sizes and register allocation -/

theorem one_le_stmtSize (s : Stmt) : 1 ≤ stmtSize s := by
  cases s
  all_goals simp [stmtSize]
  all_goals omega

theorem bodySize_append (xs ys : List Stmt) :
    bodySize (xs ++ ys) = bodySize xs + bodySize ys := by
  induction xs with
  | nil => simp [bodySize]
  | cons s rest ih => simp [bodySize, ih]; omega

theorem garAux_ok {locked : List Int} {target : Int} :
    ∀ {l : List Int} {r : Int}, garAux locked target l = .ok r →
      r ∈ l ∧ r ∉ locked ∧ r ≠ target := by
  intro l
  induction l with
  | nil => intro r h; exact absurd h (by simp [garAux])
  | cons i rest ih =>
    intro r h
    rw [garAux] at h
    split at h
    · have h' := ih h
      exact ⟨List.mem_cons_of_mem _ h'.1, h'.2⟩
    · split at h
      · have h' := ih h
        exact ⟨List.mem_cons_of_mem _ h'.1, h'.2⟩
      · rename_i h1 h2
        injection h with h
        subst h
        exact ⟨List.mem_cons_self _ _, h1, h2⟩

theorem garAux_exhausted {locked : List Int} {target : Int} :
    ∀ {l : List Int}, (∀ i ∈ l, i ∈ locked ∨ i = target) →
      garAux locked target l =
        .error (.notImplementedError "All registers are already in use.") := by
  intro l
  induction l with
  | nil => intro _; rfl
  | cons i rest ih =>
    intro h
    rw [garAux]
    by_cases hm : i ∈ locked
    · rw [if_pos hm]
      exact ih fun j hj => h j (List.mem_cons_of_mem _ hj)
    · have ht : i = target := (h i (List.mem_cons_self i rest)).resolve_left hm
      rw [if_neg hm, if_pos ht]
      exact ih fun j hj => h j (List.mem_cons_of_mem _ hj)

theorem get_available_register_ok {e : ExtraData} {r : Int} {e' : ExtraData}
    (h : e.get_available_register = .ok (r, e')) :
    r ∈ regPool ∧ r ∉ e.locked_registers ∧ r ≠ e.target_register ∧
      e' = { e with locked_registers := e.locked_registers ++ [r] } := by
  rw [ExtraData.get_available_register] at h
  split at h
  · exact absurd h (by simp)
  · rename_i i hg
    injection h with h
    rw [Prod.mk.injEq] at h
    obtain ⟨rfl, rfl⟩ := h
    have h' := garAux_ok hg
    exact ⟨h'.1, h'.2.1, h'.2.2, rfl⟩

theorem mem_regPool {r : Int} (h : r ∈ regPool) : 1 ≤ r ∧ r ≤ 14 := by
  simp [regPool] at h
  rcases h with rfl | rfl | rfl | rfl | rfl | rfl | rfl | rfl | rfl | rfl | rfl | rfl | rfl | rfl
  all_goals norm_num

/-! ## Fuel irrelevance -/

theorem convertF_fuel :
    ∀ n : Nat,
      (∀ m s extra, stmtSize s ≤ n → stmtSize s ≤ m →
        convert_stmtF n s extra = convert_stmtF m s extra) ∧
      (∀ m body extra, bodySize body ≤ n → bodySize body ≤ m →
        convert_bodyF n body extra = convert_bodyF m body extra) := by
  intro n
  induction n with
  | zero =>
    constructor
    · intro m s extra h1 _
      exact absurd (one_le_stmtSize s) (by omega)
    · intro m body extra h1 _
      cases body with
      | nil => cases m <;> rfl
      | cons s rest =>
        exfalso
        have := one_le_stmtSize s
        simp [bodySize] at h1
  | succ n ih =>
    constructor
    · intro m s extra h1 h2
      have hm : m ≠ 0 := by have := one_le_stmtSize s; omega
      obtain ⟨m', rfl⟩ : ∃ m', m = m' + 1 := ⟨m - 1, by omega⟩
      cases s with
      | assign lineno targets value => rfl
      | ifStmt lineno test body =>
        have hb : ∀ e, convert_bodyF n body e = convert_bodyF m' body e := fun e =>
          ih.2 m' body e (by simp [stmtSize] at h1; omega)
            (by simp [stmtSize] at h2; omega)
        simp only [convert_stmtF, hb]
      | whileStmt lineno test body =>
        have hb : ∀ e, convert_bodyF n body e = convert_bodyF m' body e := fun e =>
          ih.2 m' body e (by simp [stmtSize] at h1; omega)
            (by simp [stmtSize] at h2; omega)
        simp only [convert_stmtF, hb]
      | forStmt lineno target iter body =>
        cases iter with
        | nonRange ty => rfl
        | rangeCall args =>
          match args with
          | [] => rfl
          | [a] => rfl
          | a :: b :: c :: rest => rfl
          | [start, stop] =>
            have hsz : stmtSize (Stmt.forStmt lineno target (.rangeCall [start, stop]) body) =
                5 + bodySize body := rfl
            have ha : ∀ e, convert_stmtF n (.assign lineno [.name target] (.const start)) e =
                convert_stmtF m' (.assign lineno [.name target] (.const start)) e := fun e =>
              ih.1 m' _ e (by simp [stmtSize]; omega) (by simp [stmtSize]; omega)
            have hw : ∀ e, convert_stmtF n
                (.whileStmt lineno (.compare (.name target) [.lt] [.const stop])
                  (body ++ [.assign 3 [.name target] (.binOp (.name target) .add (.const 1))])) e =
                convert_stmtF m'
                (.whileStmt lineno (.compare (.name target) [.lt] [.const stop])
                  (body ++ [.assign 3 [.name target] (.binOp (.name target) .add (.const 1))])) e := by
              intro e
              refine ih.1 m' _ e ?_ ?_ <;>
                simp [stmtSize, bodySize_append, bodySize] at h1 h2 ⊢ <;> omega
            simp only [convert_stmtF, ha, hw]
    · intro m body extra h1 h2
      cases body with
      | nil => cases m <;> rfl
      | cons s rest =>
        have hm : m ≠ 0 := by
          have := one_le_stmtSize s
          simp [bodySize] at h2
          omega
        obtain ⟨m', rfl⟩ : ∃ m', m = m' + 1 := ⟨m - 1, by omega⟩
        have hs : ∀ e, convert_stmtF n s e = convert_stmtF m' s e := fun e =>
          ih.1 m' s e (by simp [bodySize] at h1; omega) (by simp [bodySize] at h2; omega)
        have hr : ∀ e, convert_bodyF n rest e = convert_bodyF m' rest e := fun e =>
          ih.2 m' rest e (by simp [bodySize] at h1; have := one_le_stmtSize s; omega)
            (by simp [bodySize] at h2; have := one_le_stmtSize s; omega)
        simp only [convert_bodyF, hs, hr]

theorem convert_stmtF_eq {n : Nat} (s : Stmt) (extra : ExtraData)
    (h : stmtSize s ≤ n) : convert_stmtF n s extra = convert_stmt s extra :=
  (convertF_fuel n).1 (stmtSize s) s extra h le_rfl

theorem convert_bodyF_eq {n : Nat} (body : List Stmt) (extra : ExtraData)
    (h : bodySize body ≤ n) : convert_bodyF n body extra = convert_body body extra :=
  (convertF_fuel n).2 (bodySize body) body extra h le_rfl

/-! ## Canonical unfolding of the fuelled converters -/

theorem convert_stmt_assign (lineno : Nat) (targets : List Expr) (value : Expr)
    (extra : ExtraData) :
    convert_stmt (.assign lineno targets value) extra =
      convert_assign targets value extra := rfl

theorem convert_stmt_if (lineno : Nat) (test : Expr) (body : List Stmt)
    (extra : ExtraData) :
    convert_stmt (.ifStmt lineno test body) extra = (do
      let extra1 := { extra with if_true_label := "true" ++ toString lineno,
                                 if_done_label := "done" ++ toString lineno }
      let (compare_code, _) ← convert_any_expr test extra1
      let (body_code, extra2) ← convert_body body extra1
      pure (compare_code ++ ["#label " ++ extra1.if_true_label] ++ body_code
              ++ ["#label " ++ extra1.if_done_label], extra2)) := by
  have hsz : stmtSize (.ifStmt lineno test body) = bodySize body + 1 := by
    simp [stmtSize]; omega
  rw [convert_stmt, hsz]
  rfl

theorem convert_stmt_while (lineno : Nat) (test : Expr) (body : List Stmt)
    (extra : ExtraData) :
    convert_stmt (.whileStmt lineno test body) extra = (do
      let extra1 := { extra with loop_start_label := "loop" ++ toString lineno,
                                 if_true_label := "true" ++ toString lineno,
                                 if_done_label := "done" ++ toString lineno }
      let (test_code, _) ← convert_any_expr test extra1
      let (body_code, extra2) ← convert_body body extra1
      pure (["#label " ++ extra1.loop_start_label] ++ test_code
              ++ ["#label " ++ extra1.if_true_label] ++ body_code
              ++ ["jump " ++ extra1.loop_start_label]
              ++ ["#label " ++ extra1.if_done_label], extra2)) := by
  have hsz : stmtSize (.whileStmt lineno test body) = bodySize body + 1 := by
    simp [stmtSize]; omega
  rw [convert_stmt, hsz]
  rfl

theorem convert_stmt_for (lineno : Nat) (target : String) (start stop : Int)
    (body : List Stmt) (extra : ExtraData) :
    convert_stmt (.forStmt lineno target (.rangeCall [start, stop]) body) extra = (do
      let assign_obj : Stmt := .assign lineno [.name target] (.const start)
      let while_obj : Stmt := .whileStmt lineno
          (.compare (.name target) [.lt] [.const stop])
          (body ++ [.assign 3 [.name target] (.binOp (.name target) .add (.const 1))])
      let (assign_code, e1) ← convert_stmt assign_obj extra
      let extraMut := callerAfter assign_obj extra e1
      let (while_code, _) ← convert_stmt while_obj extraMut
      pure (assign_code ++ while_code, extraMut)) := by
  have hsz : stmtSize (.forStmt lineno target (.rangeCall [start, stop]) body) =
      (4 + bodySize body) + 1 := by simp [stmtSize]; omega
  rw [convert_stmt, hsz]
  have ha : ∀ e, convert_stmtF (4 + bodySize body)
      (Stmt.assign lineno [.name target] (.const start)) e =
      convert_stmt (Stmt.assign lineno [.name target] (.const start)) e :=
    fun e => convert_stmtF_eq _ e (by simp [stmtSize]; omega)
  have hw : ∀ e, convert_stmtF (4 + bodySize body)
      (Stmt.whileStmt lineno (.compare (.name target) [.lt] [.const stop])
        (body ++ [.assign 3 [.name target] (.binOp (.name target) .add (.const 1))])) e =
      convert_stmt (Stmt.whileStmt lineno (.compare (.name target) [.lt] [.const stop])
        (body ++ [.assign 3 [.name target] (.binOp (.name target) .add (.const 1))])) e :=
    fun e => convert_stmtF_eq _ e (by
      simp [stmtSize, bodySize_append, bodySize]; omega)
  simp only [convert_stmtF, ha, hw]

theorem convert_body_nil (extra : ExtraData) :
    convert_body [] extra = .ok ([], extra) := rfl

theorem convert_body_cons (s : Stmt) (rest : List Stmt) (extra : ExtraData) :
    convert_body (s :: rest) extra = (do
      let (c, ret) ← convert_stmt s extra
      let (cs, e2) ← convert_body rest (callerAfter s extra ret)
      pure (c ++ cs, e2)) := by
  have hsz : bodySize (s :: rest) = (stmtSize s + bodySize rest) + 1 := by
    simp [bodySize]; omega
  rw [convert_body, hsz]
  have hs : ∀ e, convert_stmtF (stmtSize s + bodySize rest) s e = convert_stmt s e :=
    fun e => convert_stmtF_eq s e (by omega)
  have hr : ∀ e, convert_bodyF (stmtSize s + bodySize rest) rest e = convert_body rest e :=
    fun e => convert_bodyF_eq rest e (by omega)
  simp only [convert_bodyF, hs, hr]

/-! ## C7: register allocation stays in 1..14, avoids locks and the
pinned target, and reports exhaustion -/

/-- C7: every register index `get_available_register` returns lies in
`1..14` (register 0 is never allocated), is not in the locked set and is
not the pinned target register; and when every index of the pool is
locked or pinned, allocation fails with the register-exhaustion error
(`NotImplementedError('All registers are already in use.')`). -/
theorem register_allocation_sound (e : ExtraData) :
    (∀ r e', e.get_available_register = .ok (r, e') →
      1 ≤ r ∧ r ≤ 14 ∧ r ∉ e.locked_registers ∧ r ≠ e.target_register) ∧
    ((∀ i ∈ regPool, i ∈ e.locked_registers ∨ i = e.target_register) →
      e.get_available_register =
        .error (.notImplementedError "All registers are already in use.")) := by
  constructor
  · intro r e' h
    obtain ⟨hpool, hlock, htgt, _⟩ := get_available_register_ok h
    obtain ⟨h1, h2⟩ := mem_regPool hpool
    exact ⟨h1, h2, hlock, htgt⟩
  · intro h
    rw [ExtraData.get_available_register, garAux_exhausted h]

/-- Witness for C7: on a fresh context the allocator returns register 1
with the stated properties, and on a fully locked context it fails with
the exhaustion error. -/
theorem register_allocation_sound_witness :
    ((1 : Int) ≤ 1 ∧ (1 : Int) ≤ 14 ∧ (1 : Int) ∉ ([] : List Int) ∧ (1 : Int) ≠ -1) ∧
    (ExtraData.mk [] [1, 2, 3, 4, 5, 6, 7, 8, 9, 10, 11, 12, 13, 14] (-1) "" "" "").get_available_register =
      .error (.notImplementedError "All registers are already in use.") :=
  ⟨(register_allocation_sound {}).1 1
      { locked_registers := [1] } rfl,
   (register_allocation_sound
      (ExtraData.mk [] [1, 2, 3, 4, 5, 6, 7, 8, 9, 10, 11, 12, 13, 14] (-1) "" "" "")).2
      (by decide)⟩

/-! ## C1: `convert_binop` emits exactly three instructions -/

/-- C1: for every operator in `{+,-,*,/}` and operands that are each a
`NameRef` or an integer `Constant`, a successful `convert_binop` emits
exactly three instructions, in order: the left operand's load (`load`
for a `NameRef`, `lea` for a `Constant`) into a fresh register, then the
right operand's into a second fresh register — the left load strictly
before the right load — then the matching `add`/`sub`/`mul`/`div`
writing the target register from those two staging registers. -/
theorem binop_emits_three_instructions
    (left right : Expr) (op : BOp) (extra : ExtraData)
    (code : List String) (extra' : ExtraData)
    (_hl : left.isLeaf = true) (_hr : right.isLeaf = true)
    (h : convert_binop left op right extra = .ok (code, extra')) :
    ∃ rt rl rr : Int,
      rt = extra'.target_register ∧ rl ≠ rr ∧ rt ≠ rl ∧ rt ≠ rr ∧
      code = [Converter.comment (leafInstr left rl) (unparseExpr (.binOp left op right)),
              Converter.comment (leafInstr right rr) (unparseExpr (.binOp left op right)),
              Converter.comment (bopName op ++ " R" ++ toString rt ++ ",R" ++ toString rl
                  ++ ",R" ++ toString rr) (unparseExpr (.binOp left op right))] := by
  rw [convert_binop] at h
  split at h
  · exact absurd h (by simp)
  · rename_i extra1 heq1
    split at h
    · exact absurd h (by simp)
    · split at h
      · exact absurd h (by simp)
      · split at h
        · exact absurd h (by simp)
        · rename_i left_register extra2 hg2
          split at h
          · exact absurd h (by simp)
          · rename_i right_register extra3 hg3
            injection h with h
            rw [Prod.mk.injEq] at h
            obtain ⟨hcode, rfl⟩ := h
            obtain ⟨_, hlk2, htg2, he2⟩ := get_available_register_ok hg2
            obtain ⟨_, hlk3, htg3, he3⟩ := get_available_register_ok hg3
            subst he3
            subst he2
            refine ⟨extra1.target_register, left_register, right_register, rfl, ?_, ?_, ?_, ?_⟩
            · intro hEq
              apply hlk3
              simp [hEq]
            · exact Ne.symm htg2
            · exact Ne.symm htg3
            · exact hcode.symm

/-- Witness for C1: lowering `a + 1` in a fresh context succeeds and
produces the three-instruction shape (target register 1, staging
registers 2 and 3). -/
theorem binop_emits_three_instructions_witness :
    (Expr.name "a").isLeaf = true ∧ (Expr.const 1).isLeaf = true ∧
    ∃ code extra',
      convert_binop (.name "a") .add (.const 1) {} = .ok (code, extra') ∧
      ∃ rt rl rr : Int,
        rt = extra'.target_register ∧ rl ≠ rr ∧ rt ≠ rl ∧ rt ≠ rr ∧
        code = [Converter.comment (leafInstr (.name "a") rl)
                  (unparseExpr (.binOp (.name "a") .add (.const 1))),
                Converter.comment (leafInstr (.const 1) rr)
                  (unparseExpr (.binOp (.name "a") .add (.const 1))),
                Converter.comment (bopName .add ++ " R" ++ toString rt ++ ",R" ++ toString rl
                    ++ ",R" ++ toString rr)
                  (unparseExpr (.binOp (.name "a") .add (.const 1)))] :=
  ⟨rfl, rfl, _, _, rfl,
    binop_emits_three_instructions (.name "a") (.const 1) .add {} _ _ rfl rfl rfl⟩

/-! ## Reduction helpers for `Except` binds -/

theorem except_ok_bind {α β : Type} (a : α) (f : α → Except PyError β) :
    (Except.ok a >>= f) = f a := rfl

theorem except_error_bind {α β : Type} (e : PyError) (f : α → Except PyError β) :
    ((Except.error e : Except PyError α) >>= f) = .error e := rfl

/-! ## C9: determinism -/

/-- C9: compilation is deterministic — the emitted assembly text is a
function of the parsed source alone, so compiling identical input twice
gives byte-identical output.  (The embedding is pure by construction;
the Python implementation's only input-independent variation — memory
addresses in the `repr` of AST nodes — can occur solely in exception
messages, never in produced assembly text.) -/
theorem convert_deterministic (m1 m2 : List Stmt) (h : m1 = m2) :
    Converter.convert m1 = Converter.convert m2 := by rw [h]

/-- Witness for C9 at a concrete one-statement module. -/
theorem convert_deterministic_witness :
    Converter.convert [Stmt.assign 1 [.name "a"] (.const 15)] =
      Converter.convert [Stmt.assign 1 [.name "a"] (.const 15)] :=
  convert_deterministic [Stmt.assign 1 [.name "a"] (.const 15)]
    [Stmt.assign 1 [.name "a"] (.const 15)] rfl

/-! ## C10: the module-level context merge resets everything but
`memory_data` -/

/-- A context in its reset state: no locked registers, no pinned target
register, no labels. -/
def freshCtx (e : ExtraData) : Prop :=
  e.locked_registers = [] ∧ e.target_register = -1 ∧
  e.if_true_label = "" ∧ e.if_done_label = "" ∧ e.loop_start_label = ""

/-- C10: `ExtraData.__add__` keeps only the merged `memory_data` and
resets every other field (empty lock set, `target_register = -1`, empty
labels); the module loop starts from a fresh context and re-merges after
every top-level statement, so each top-level statement begins lowering
with the full register pool free and locks never survive across sibling
top-level statements. -/
theorem module_context_reset :
    (∀ a b : ExtraData,
      a.add b = ⟨dictMerge a.memory_data b.memory_data, [], -1, "", "", ""⟩) ∧
    freshCtx ({} : ExtraData) ∧
    (∀ stmts extra code extra', freshCtx extra →
      convert_module_aux stmts extra = .ok (code, extra') → freshCtx extra') := by
  refine ⟨fun a b => rfl, ⟨rfl, rfl, rfl, rfl, rfl⟩, ?_⟩
  intro stmts
  induction stmts with
  | nil =>
    intro extra code extra' hf h
    rw [convert_module_aux] at h
    injection h with h
    rw [Prod.mk.injEq] at h
    obtain ⟨-, rfl⟩ := h
    exact hf
  | cons s rest ih =>
    intro extra code extra' hf h
    rw [convert_module_aux] at h
    cases hs : convert_stmt s extra with
    | error e =>
      rw [hs, except_error_bind] at h
      exact absurd h (by simp)
    | ok p =>
      obtain ⟨c, ret⟩ := p
      rw [hs, except_ok_bind] at h
      simp only at h
      cases hm : convert_module_aux rest ((callerAfter s extra ret).add ret) with
      | error e =>
        rw [hm, except_error_bind] at h
        exact absurd h (by simp)
      | ok q =>
        obtain ⟨cs, e2⟩ := q
        rw [hm, except_ok_bind] at h
        injection h with h
        rw [Prod.mk.injEq] at h
        obtain ⟨-, rfl⟩ := h
        exact ih _ _ _ ⟨rfl, rfl, rfl, rfl, rfl⟩ hm

/-- Witness for C10: after the one-statement module `a = 15` the
accumulated context is fresh again. -/
theorem module_context_reset_witness :
    freshCtx ({} : ExtraData) ∧
    freshCtx (ExtraData.mk [("a", 15)] [] (-1) "" "" "") :=
  ⟨module_context_reset.2.1,
   module_context_reset.2.2 [Stmt.assign 1 [.name "a"] (.const 15)] {} []
     (ExtraData.mk [("a", 15)] [] (-1) "" "" "") module_context_reset.2.1 rfl⟩

/-! ## C8: adjacent pending labels — the later silently wins -/

theorem labelMatch_label (a : String) :
    labelMatch ("#label " ++ a) = some (String.mk (dropCommentChars a.data)) := by
  have h : ("#label " ++ a).data = '#' :: 'l' :: 'a' :: 'b' :: 'e' :: 'l' :: ' ' :: a.data := by
    rw [String.data_append]; rfl
  unfold labelMatch
  rw [h]
  rfl

/-- C8: when two `PendingLabel` units occur with no instruction between
them, the later name silently replaces the earlier one in the single
pending-label slot — no diagnostic is produced and the linearized output
is identical to that of the stream without the earlier label, so the
earlier label is attached to no output line and is dropped from the
assembly text. -/
theorem adjacent_pending_label_overwritten (xs ys : List String) (a b : String) :
    linearize "" (xs ++ ["#label " ++ a, "#label " ++ b] ++ ys) =
      linearize "" (xs ++ ["#label " ++ b] ++ ys) := by
  suffices h : ∀ st, linearize st (xs ++ ["#label " ++ a, "#label " ++ b] ++ ys) =
      linearize st (xs ++ ["#label " ++ b] ++ ys) from h ""
  induction xs with
  | nil =>
    intro st
    simp only [List.nil_append, List.cons_append, linearize, labelMatch_label]
  | cons x rest ih =>
    intro st
    simp only [List.cons_append, linearize]
    cases hm : labelMatch x with
    | some l => simp only [hm]; exact ih l
    | none => simp only [hm]; exact congrArg _ (ih "")

/-! ## C4 and C3: constant assignments -/

theorem unparseAssign_single (y : String) (d : Int) :
    unparseAssign [.name y] (.const d) = y ++ " = " ++ toString d := by
  simp [unparseAssign, unparseExpr, String.intercalate, String.intercalate.go]

theorem single_assign_stmt (x : String) (c : Int) (lineno : Nat) :
    convert_stmt (.assign lineno [.name x] (.const c)) {} =
      .ok ([], ⟨[(x, c)], [], -1, "", "", ""⟩) := rfl

theorem single_assign_module (x : String) (c : Int) (lineno : Nat) :
    convert_module [.assign lineno [.name x] (.const c)] =
      .ok ([], ⟨[(x, c)], [], -1, "", "", ""⟩) := by
  simp [convert_module, convert_module_aux, single_assign_stmt x c lineno, except_ok_bind,
    callerAfter, ExtraData.add, dictMerge, dictLookup, List.filter]

/-- C4: compiling the single-statement program `x = c` emits no
instructions for the assignment — the instruction section of the output
is exactly the (unlabelled) halt instruction, and the data section is
exactly the one line `x data c`. -/
theorem single_constant_assign_declares_only (x : String) (c : Int) (lineno : Nat) :
    Converter.assembly_code [.assign lineno [.name x] (.const c)] =
      .ok (String.intercalate "\n"
        [padRight "" 20 ++ trap_line, "",
         Converter.comment (x ++ " data " ++ toString c) "initial value" (-20)]) := by
  unfold Converter.assembly_code
  rw [single_assign_module x c lineno, except_ok_bind]
  rfl

/-- C3: compiling `x = c1` then `x = c2` yields exactly
`lea R1,c2` / `store R1,x` / unlabelled halt as the instruction section,
while the data section keeps the first value: exactly `x data c1`.  And
in general a constant assignment to a name already present in
`memory_data` emits the `lea`-into-R1 / `store` pair and returns the
context unchanged (the recorded initial value in particular). -/
theorem constant_reassignment (x : String) (c1 c2 : Int) (l1 l2 : Nat) :
    Converter.assembly_code
        [.assign l1 [.name x] (.const c1), .assign l2 [.name x] (.const c2)] =
      .ok (String.intercalate "\n"
        [padRight "" 20 ++
           Converter.comment ("lea R1," ++ toString c2) (x ++ " = " ++ toString c2),
         padRight "" 20 ++
           Converter.comment ("store R1," ++ x) (x ++ " = " ++ toString c2),
         padRight "" 20 ++ trap_line, "",
         Converter.comment (x ++ " data " ++ toString c1) "initial value" (-20)]) ∧
    (∀ (y : String) (d : Int) (extra : ExtraData),
      (dictLookup extra.memory_data y).isSome = true →
      convert_assign [.name y] (.const d) extra =
        .ok ([Converter.comment ("lea R1," ++ toString d) (y ++ " = " ++ toString d),
              Converter.comment ("store R1," ++ y) (y ++ " = " ++ toString d)], extra)) := by
  have hgen : ∀ (y : String) (d : Int) (extra : ExtraData),
      (dictLookup extra.memory_data y).isSome = true →
      convert_assign [.name y] (.const d) extra =
        .ok ([Converter.comment ("lea R1," ++ toString d) (y ++ " = " ++ toString d),
              Converter.comment ("store R1," ++ y) (y ++ " = " ++ toString d)], extra) := by
    intro y d extra hmem
    simp only [convert_assign, targetIds, List.foldl, hmem, if_true, unparseAssign_single]
    rfl
  refine ⟨?_, hgen⟩
  have h2 : convert_stmt (.assign l2 [.name x] (.const c2))
      (⟨[(x, c1)], [], -1, "", "", ""⟩ : ExtraData) =
      .ok ([Converter.comment ("lea R1," ++ toString c2) (x ++ " = " ++ toString c2),
            Converter.comment ("store R1," ++ x) (x ++ " = " ++ toString c2)],
           ⟨[(x, c1)], [], -1, "", "", ""⟩) := by
    rw [convert_stmt_assign]
    exact hgen x c2 _ (by simp [dictLookup])
  have hmod : convert_module
      [.assign l1 [.name x] (.const c1), .assign l2 [.name x] (.const c2)] =
      .ok ([Converter.comment ("lea R1," ++ toString c2) (x ++ " = " ++ toString c2),
            Converter.comment ("store R1," ++ x) (x ++ " = " ++ toString c2)],
           ⟨[(x, c1)], [], -1, "", "", ""⟩) := by
    rw [convert_module, convert_module_aux, single_assign_stmt x c1 l1, except_ok_bind]
    simp only [callerAfter, ExtraData.add]
    rw [show dictMerge [(x, c1)] [(x, c1)] = [(x, c1)] by
      simp [dictMerge, dictLookup, List.filter]]
    rw [convert_module_aux, h2, except_ok_bind]
    simp only [callerAfter, ExtraData.add]
    rw [show dictMerge [(x, c1)] [(x, c1)] = [(x, c1)] by
      simp [dictMerge, dictLookup, List.filter]]
    rfl
  unfold Converter.assembly_code
  rw [hmod, except_ok_bind]
  rfl

/-- Witness for C3's general clause: re-assigning `x = 7` when `x` is
already recorded with initial value 1 emits the `lea`/`store` pair and
leaves the context untouched. -/
theorem constant_reassignment_witness :
    convert_assign [.name "x"] (.const 7) (ExtraData.mk [("x", 1)] [] (-1) "" "" "") =
      .ok ([Converter.comment ("lea R1," ++ toString (7 : Int))
              ("x" ++ " = " ++ toString (7 : Int)),
            Converter.comment ("store R1," ++ "x")
              ("x" ++ " = " ++ toString (7 : Int))],
           ExtraData.mk [("x", 1)] [] (-1) "" "" "") :=
  (constant_reassignment "x" 1 7 1 2).2 "x" 7
    (ExtraData.mk [("x", 1)] [] (-1) "" "" "") rfl

/-! ## C6: chained comparisons are rejected -/

/-- C6: a `Compare` node whose comparator count or operator count is
not exactly one is rejected by `convert_compare` with the `ValueError`
arity error (the spec's `UnsupportedConstruct`) and produces no output.
The general clause assumes the statement-entry context shape (no locked
registers, no pinned target) and leaf operands, because the register
allocations and operand loads run before the arity checks; the second
clause shows the headline instance — compiling a program whose `if`
test is the chained comparison `a < b < c` fails with that error. -/
theorem chained_compare_rejected :
    (∀ (left : Expr) (ops : List CmpOp) (comparators : List Expr) (extra : ExtraData),
      extra.locked_registers = [] → extra.target_register = -1 →
      left.isLeaf = true → (∀ e ∈ comparators, e.isLeaf = true) →
      (comparators.length ≠ 1 ∨ ops.length ≠ 1) →
      convert_compare left ops comparators extra =
        .error (.valueError "Only support 1 operator.")) ∧
    Converter.assembly_code
        [.ifStmt 1 (.compare (.name "a") [.lt, .lt] [.name "b", .name "c"]) []] =
      .error (.valueError "Only support 1 operator.") := by
  constructor
  · intro left ops comparators extra hlk htg hleaf hcomps harity
    have hg1 : extra.get_available_register =
        .ok (1, { extra with locked_registers := [1] }) := by
      unfold ExtraData.get_available_register
      rw [hlk, htg]
      rfl
    have hg2 : ({ extra with locked_registers := [1] } : ExtraData).get_available_register =
        .ok (2, { extra with locked_registers := [1, 2] }) := by
      unfold ExtraData.get_available_register
      simp only [htg]
      rfl
    have hload1 : ∃ s, loadOperand left 1
        (.notImplementedError "type of compare left operand") = .ok s := by
      cases left with
      | name id => exact ⟨_, rfl⟩
      | const v => exact ⟨_, rfl⟩
      | binOp l op r => simp [Expr.isLeaf] at hleaf
      | compare l o c => simp [Expr.isLeaf] at hleaf
    obtain ⟨s1, hs1⟩ := hload1
    rcases comparators with - | ⟨c, - | ⟨c2, crest⟩⟩
    · simp only [convert_compare, hg1, hg2, hs1]
    · have hops : ops.length ≠ 1 := by
        rcases harity with h | h
        · simp at h
        · exact h
      have hc : c.isLeaf = true := hcomps c (by simp)
      have hload2 : ∃ s, loadOperand c 2
          (.notImplementedError "type of comparators") = .ok s := by
        cases c with
        | name id => exact ⟨_, rfl⟩
        | const v => exact ⟨_, rfl⟩
        | binOp l op r => simp [Expr.isLeaf] at hc
        | compare l o cc => simp [Expr.isLeaf] at hc
      obtain ⟨s2, hs2⟩ := hload2
      rcases ops with - | ⟨o, - | ⟨o2, orest⟩⟩
      · simp only [convert_compare, hg1, hg2, hs1, hs2]
      · exact absurd rfl hops
      · simp only [convert_compare, hg1, hg2, hs1, hs2]
    · simp only [convert_compare, hg1, hg2, hs1]
  · rfl

/-- Witness for C6's general clause: the chained test of `a < b < c`
(two comparators, two operators) is rejected in a fresh context. -/
theorem chained_compare_rejected_witness :
    convert_compare (.name "a") [.lt, .lt] [.name "b", .name "c"] {} =
      .error (.valueError "Only support 1 operator.") :=
  chained_compare_rejected.1 (.name "a") [.lt, .lt] [.name "b", .name "c"] {}
    rfl rfl rfl (by intro e he; fin_cases he <;> rfl) (by left; decide)

/-! ## C2: `for`-`range` desugars to assign + while -/

/-- C2: for every body, loop variable and pair of integer literal
bounds, compiling the one-statement module
`for <name> in range(<start>, <stop>): <body>` produces exactly the same
instruction stream as compiling the hand-expanded two-statement module
`<name> = <start>` followed by `while <name> < <stop>:` whose body is
the original body with `<name> = <name> + 1` appended — both synthetic
statements carrying the `for` statement's own line number, so the
`loop`/`true`/`done` label numbers come from the `for`'s line.  (The
appended increment keeps line number 3 from the parsed template; no
lowering ever consults an assignment's line number.) -/
theorem for_range_desugars_to_while (lineno : Nat) (target : String)
    (start stop : Int) (body : List Stmt) :
    (convert_module [.forStmt lineno target (.rangeCall [start, stop]) body]).map Prod.fst =
      (convert_module
        [.assign lineno [.name target] (.const start),
         .whileStmt lineno (.compare (.name target) [.lt] [.const stop])
           (body ++ [.assign 3 [.name target]
             (.binOp (.name target) .add (.const 1))])]).map Prod.fst := by
  have hA : convert_stmt (.assign lineno [.name target] (.const start)) {} =
      .ok ([], ⟨[(target, start)], [], -1, "", "", ""⟩) := rfl
  have hcA : callerAfter (.assign lineno [.name target] (.const start)) {}
      (⟨[(target, start)], [], -1, "", "", ""⟩ : ExtraData) =
      ⟨[(target, start)], [], -1, "", "", ""⟩ := rfl
  have hAdd : (⟨[(target, start)], [], -1, "", "", ""⟩ : ExtraData).add
      (⟨[(target, start)], [], -1, "", "", ""⟩ : ExtraData) =
      ⟨[(target, start)], [], -1, "", "", ""⟩ := by
    simp [ExtraData.add, dictMerge, dictLookup, List.filter]
  simp only [convert_module, convert_module_aux, convert_stmt_for, hA, except_ok_bind,
    hcA, hAdd]
  cases hw : convert_stmt
      (.whileStmt lineno (.compare (.name target) [.lt] [.const stop])
        (body ++ [.assign 3 [.name target] (.binOp (.name target) .add (.const 1))]))
      (⟨[(target, start)], [], -1, "", "", ""⟩ : ExtraData) with
  | error e => simp [hw, except_error_bind]
  | ok p =>
    obtain ⟨wc, wext⟩ := p
    simp [hw, except_ok_bind, except_error_bind, Except.map]

/-! ## C5: the terminating halt — infrastructure

The halt (`trap`) line is appended exactly once by `assembly_code`; to
show no generated instruction collides with it we track the first
character of every emitted line: generated lines start with `#` (pending
labels), `l` (load/lea), `a`/`s`/`m`/`d` (arithmetic), `c` (cmp) or `j`
(jumps) — never `t`. -/

def firstChar (s : String) : Option Char := s.data.head?

theorem head?_append {l1 : List Char} (l2 : List Char) {c : Char}
    (h : l1.head? = some c) : (l1 ++ l2).head? = some c := by
  cases l1 with
  | nil => simp at h
  | cons a as =>
    simp only [List.head?] at h ⊢
    simpa using h

theorem data_head?_append {s : String} (t : String) {c : Char}
    (h : s.data.head? = some c) : (s ++ t).data.head? = some c := by
  rw [String.data_append]
  exact head?_append _ h

theorem firstChar_append {s : String} (t : String) {c : Char}
    (h : s.data.head? = some c) : firstChar (s ++ t) = some c :=
  data_head?_append t h

theorem firstChar_comment {instr : String} (cmt : String) (ind : Int) {c : Char}
    (h : instr.data.head? = some c) :
    firstChar (Converter.comment instr cmt ind) = some c := by
  unfold Converter.comment
  refine firstChar_append _ ?_
  refine data_head?_append _ ?_
  unfold padRight
  exact data_head?_append _ h

theorem leafInstr_head (left : Expr) (r : Int) (h : left.isLeaf = true) :
    (leafInstr left r).data.head? = some 'l' := by
  cases left with
  | name id =>
    exact data_head?_append _ (data_head?_append _ (data_head?_append _ rfl))
  | const v =>
    exact data_head?_append _ (data_head?_append _ (data_head?_append _ rfl))
  | binOp l op rr => simp [Expr.isLeaf] at h
  | compare l o cc => simp [Expr.isLeaf] at h

theorem bopName_head (op : BOp) :
    ∃ c, (bopName op).data.head? = some c ∧ c ≠ 't' := by
  cases op with
  | add => exact ⟨'a', rfl, by decide⟩
  | sub => exact ⟨'s', rfl, by decide⟩
  | mult => exact ⟨'m', rfl, by decide⟩
  | div => exact ⟨'d', rfl, by decide⟩

theorem loadOperand_head {e : Expr} {r : Int} {bad : PyError} {s : String}
    (h : loadOperand e r bad = .ok s) : s.data.head? = some 'l' := by
  cases e with
  | name id =>
    rw [loadOperand] at h
    injection h with h
    rw [← h]
    exact data_head?_append _ (data_head?_append _ (data_head?_append _ rfl))
  | const v =>
    rw [loadOperand] at h
    injection h with h
    rw [← h]
    exact data_head?_append _ (data_head?_append _ (data_head?_append _ rfl))
  | binOp l op rr => exact absurd h (by simp [loadOperand])
  | compare l o cc => exact absurd h (by simp [loadOperand])

theorem jumpName_head (op : CmpOp) : (jumpName op).data.head? = some 'j' := by
  cases op <;> rfl

theorem noTrap_binop {left : Expr} {op : BOp} {right : Expr} {extra : ExtraData}
    {code : List String} {e' : ExtraData}
    (h : convert_binop left op right extra = .ok (code, e')) :
    ∀ line ∈ code, firstChar line ≠ some 't' := by
  rw [convert_binop] at h
  split at h
  · exact absurd h (by simp)
  · rename_i extra1 heq1
    split at h
    · exact absurd h (by simp)
    · split at h
      · exact absurd h (by simp)
      · rename_i hleft hright
        split at h
        · exact absurd h (by simp)
        · rename_i left_register extra2 hg2
          split at h
          · exact absurd h (by simp)
          · rename_i right_register extra3 hg3
            injection h with h
            rw [Prod.mk.injEq] at h
            obtain ⟨hcode, rfl⟩ := h
            rw [← hcode]
            intro line hline
            have hl : left.isLeaf = true := by
              revert hleft
              cases left.isLeaf <;> simp
            have hr : right.isLeaf = true := by
              revert hright
              cases right.isLeaf <;> simp
            simp only [List.mem_cons, List.not_mem_nil, or_false] at hline
            rcases hline with rfl | rfl | rfl
            · rw [firstChar_comment _ _ (leafInstr_head left _ hl)]
              decide
            · rw [firstChar_comment _ _ (leafInstr_head right _ hr)]
              decide
            · obtain ⟨c, hc, hct⟩ := bopName_head op
              rw [firstChar_comment _ _
                (data_head?_append _ (data_head?_append _ (data_head?_append _
                  (data_head?_append _ (data_head?_append _ (data_head?_append _ hc))))))]
              simp [hct]

theorem noTrap_compare {left : Expr} {ops : List CmpOp} {comparators : List Expr}
    {extra : ExtraData} {code : List String} {e' : ExtraData}
    (h : convert_compare left ops comparators extra = .ok (code, e')) :
    ∀ line ∈ code, firstChar line ≠ some 't' := by
  rw [convert_compare] at h
  split at h
  · exact absurd h (by simp)
  · rename_i left_register extra1 hg1
    split at h
    · exact absurd h (by simp)
    · rename_i right_register extra2 hg2
      split at h
      · exact absurd h (by simp)
      · rename_i c1 hc1
        split at h
        · rename_i comparator
          split at h
          · exact absurd h (by simp)
          · rename_i c2 hc2
            split at h
            · rename_i op
              injection h with h
              rw [Prod.mk.injEq] at h
              obtain ⟨hcode, rfl⟩ := h
              rw [← hcode]
              intro line hline
              simp only [List.mem_cons, List.not_mem_nil, or_false] at hline
              rcases hline with rfl | rfl | rfl | rfl | rfl
              · rw [firstChar, loadOperand_head hc1]
                decide
              · rw [firstChar, loadOperand_head hc2]
                decide
              · rw [firstChar,
                  data_head?_append _ (data_head?_append _ (data_head?_append _
                    (show ("cmp R" : String).data.head? = some 'c' from rfl)))]
                decide
              · rw [firstChar, data_head?_append _ (jumpName_head op)]
                decide
              · rw [firstChar, data_head?_append _
                    (show ("jump " : String).data.head? = some 'j' from rfl)]
                decide
            · exact absurd h (by simp)
        · exact absurd h (by simp)

theorem assign_const_fold_pres (targets : List Expr) (value : Expr) (c : Int) :
    ∀ (names : List String) (acc : List String × List (String × Int)),
      (∀ l ∈ acc.1, firstChar l ≠ some 't') →
      ∀ l ∈ (names.foldl (fun acc name =>
          if (dictLookup acc.2 name).isSome then
            (acc.1 ++ [Converter.comment ("lea R1," ++ toString c) (unparseAssign targets value),
                       Converter.comment ("store R1," ++ name) (unparseAssign targets value)],
             acc.2)
          else (acc.1, acc.2 ++ [(name, c)])) acc).1,
        firstChar l ≠ some 't' := by
  intro names
  induction names with
  | nil => intro acc hacc l hl; exact hacc l hl
  | cons nm rest ih =>
    intro acc hacc l hl
    rw [List.foldl_cons] at hl
    refine ih _ ?_ l hl
    intro l' hl'
    by_cases hmem : (dictLookup acc.2 nm).isSome = true
    · rw [if_pos hmem] at hl'
      simp only [List.mem_append, List.mem_cons, List.not_mem_nil, or_false] at hl'
      rcases hl' with hl' | rfl | rfl
      · exact hacc _ hl'
      · rw [firstChar_comment _ _ (data_head?_append _
          (show ("lea R1," : String).data.head? = some 'l' from rfl))]
        decide
      · rw [firstChar_comment _ _ (data_head?_append _
          (show ("store R1," : String).data.head? = some 's' from rfl))]
        decide
    · rw [if_neg hmem] at hl'
      exact hacc _ hl'

theorem assign_store_fold_pres (targets : List Expr) (value : Expr) (tr : Int) :
    ∀ (names : List String) (acc : List String × List (String × Int)),
      (∀ l ∈ acc.1, firstChar l ≠ some 't') →
      ∀ l ∈ (names.foldl (fun acc name =>
          (acc.1 ++ [Converter.comment ("store R" ++ toString tr ++ "," ++ name)
              (unparseAssign targets value)],
           if (dictLookup acc.2 name).isSome then acc.2 else acc.2 ++ [(name, 0)])) acc).1,
        firstChar l ≠ some 't' := by
  intro names
  induction names with
  | nil => intro acc hacc l hl; exact hacc l hl
  | cons nm rest ih =>
    intro acc hacc l hl
    rw [List.foldl_cons] at hl
    refine ih _ ?_ l hl
    intro l' hl'
    simp only [List.mem_append, List.mem_cons, List.not_mem_nil, or_false] at hl'
    rcases hl' with hl' | rfl
    · exact hacc _ hl'
    · rw [firstChar_comment _ _ (data_head?_append _ (data_head?_append _
        (data_head?_append _
          (show ("store R" : String).data.head? = some 's' from rfl))))]
      decide

theorem noTrap_assign {targets : List Expr} {value : Expr} {extra : ExtraData}
    {code : List String} {e' : ExtraData}
    (h : convert_assign targets value extra = .ok (code, e')) :
    ∀ line ∈ code, firstChar line ≠ some 't' := by
  rw [convert_assign] at h
  split at h
  · exact absurd h (by simp)
  · rename_i left_values htargets
    split at h
    · rename_i c
      injection h with h
      rw [Prod.mk.injEq] at h
      obtain ⟨hcode, rfl⟩ := h
      rw [← hcode]
      exact assign_const_fold_pres targets _ c left_values ([], extra.memory_data) (by simp)
    · rename_i l op r
      split at h
      · exact absurd h (by simp)
      · rename_i sub_code sub_extra hbin
        injection h with h
        rw [Prod.mk.injEq] at h
        obtain ⟨hcode, rfl⟩ := h
        rw [← hcode]
        intro line hline
        rcases List.mem_append.mp hline with hline | hline
        · exact noTrap_binop hbin line hline
        · exact assign_store_fold_pres targets _ sub_extra.target_register left_values
            ([], extra.memory_data) (by simp) line hline
    · exact absurd h (by simp)

theorem noTrap_expr {e : Expr} {extra : ExtraData} {code : List String} {e' : ExtraData}
    (h : convert_any_expr e extra = .ok (code, e')) :
    ∀ line ∈ code, firstChar line ≠ some 't' := by
  cases e with
  | binOp l op r => exact noTrap_binop h
  | compare l ops comps => exact noTrap_compare h
  | name id => exact absurd h (by simp [convert_any_expr])
  | const v => exact absurd h (by simp [convert_any_expr])

theorem label_line_head (lbl : String) :
    firstChar ("#label " ++ lbl) = some '#' :=
  data_head?_append _ rfl

theorem jump_line_head (lbl : String) :
    firstChar ("jump " ++ lbl) = some 'j' :=
  data_head?_append _ rfl

theorem noTrap_fuel :
    ∀ n : Nat,
      (∀ s extra code e', convert_stmtF n s extra = .ok (code, e') →
        ∀ line ∈ code, firstChar line ≠ some 't') ∧
      (∀ body extra code e', convert_bodyF n body extra = .ok (code, e') →
        ∀ line ∈ code, firstChar line ≠ some 't') := by
  intro n
  induction n with
  | zero =>
    constructor
    · intro s extra code e' h
      exact absurd h (by simp [convert_stmtF])
    · intro body extra code e' h
      cases body with
      | nil =>
        injection h with h
        rw [Prod.mk.injEq] at h
        obtain ⟨hcode, -⟩ := h
        rw [← hcode]
        intro line hline
        cases hline
      | cons s rest => exact absurd h (by simp [convert_bodyF])
  | succ n ih =>
    obtain ⟨ihs, ihb⟩ := ih
    constructor
    · intro s extra code e' h
      cases s with
      | assign lineno targets value => exact noTrap_assign h
      | ifStmt lineno test body =>
        simp only [convert_stmtF] at h
        cases ht : convert_any_expr test
            { extra with if_true_label := "true" ++ toString lineno,
                         if_done_label := "done" ++ toString lineno } with
        | error e =>
          rw [ht, except_error_bind] at h
          exact absurd h (by simp)
        | ok p =>
          obtain ⟨compare_code, textra⟩ := p
          rw [ht, except_ok_bind] at h
          simp only at h
          cases hb : convert_bodyF n body
              { extra with if_true_label := "true" ++ toString lineno,
                           if_done_label := "done" ++ toString lineno } with
          | error e =>
            rw [hb, except_error_bind] at h
            exact absurd h (by simp)
          | ok q =>
            obtain ⟨body_code, extra2⟩ := q
            rw [hb, except_ok_bind] at h
            injection h with h
            rw [Prod.mk.injEq] at h
            obtain ⟨hcode, rfl⟩ := h
            rw [← hcode]
            intro line hline
            simp only [List.append_assoc, List.mem_append, List.mem_cons,
              List.not_mem_nil, or_false] at hline
            rcases hline with hline | rfl | hline | rfl
            · exact noTrap_expr ht line hline
            · rw [label_line_head]; decide
            · exact ihb body _ _ _ hb line hline
            · rw [label_line_head]; decide
      | whileStmt lineno test body =>
        simp only [convert_stmtF] at h
        cases ht : convert_any_expr test
            { extra with loop_start_label := "loop" ++ toString lineno,
                         if_true_label := "true" ++ toString lineno,
                         if_done_label := "done" ++ toString lineno } with
        | error e =>
          rw [ht, except_error_bind] at h
          exact absurd h (by simp)
        | ok p =>
          obtain ⟨test_code, textra⟩ := p
          rw [ht, except_ok_bind] at h
          simp only at h
          cases hb : convert_bodyF n body
              { extra with loop_start_label := "loop" ++ toString lineno,
                           if_true_label := "true" ++ toString lineno,
                           if_done_label := "done" ++ toString lineno } with
          | error e =>
            rw [hb, except_error_bind] at h
            exact absurd h (by simp)
          | ok q =>
            obtain ⟨body_code, extra2⟩ := q
            rw [hb, except_ok_bind] at h
            injection h with h
            rw [Prod.mk.injEq] at h
            obtain ⟨hcode, rfl⟩ := h
            rw [← hcode]
            intro line hline
            simp only [List.append_assoc, List.mem_append, List.mem_cons,
              List.not_mem_nil, or_false] at hline
            rcases hline with rfl | hline | rfl | hline | rfl | rfl
            · rw [label_line_head]; decide
            · exact noTrap_expr ht line hline
            · rw [label_line_head]; decide
            · exact ihb body _ _ _ hb line hline
            · rw [jump_line_head]; decide
            · rw [label_line_head]; decide
      | forStmt lineno target iter body =>
        cases iter with
        | nonRange ty => exact absurd h (by simp [convert_stmtF])
        | rangeCall args =>
          rcases args with - | ⟨start, - | ⟨stop, - | ⟨x, xs⟩⟩⟩
          · exact absurd h (by simp [convert_stmtF])
          · exact absurd h (by simp [convert_stmtF])
          · simp only [convert_stmtF] at h
            cases ha : convert_stmtF n (.assign lineno [.name target] (.const start)) extra with
            | error e =>
              rw [ha, except_error_bind] at h
              exact absurd h (by simp)
            | ok p =>
              obtain ⟨assign_code, e1⟩ := p
              rw [ha, except_ok_bind] at h
              simp only at h
              cases hw : convert_stmtF n
                  (.whileStmt lineno (.compare (.name target) [.lt] [.const stop])
                    (body ++ [.assign 3 [.name target]
                      (.binOp (.name target) .add (.const 1))]))
                  (callerAfter (.assign lineno [.name target] (.const start)) extra e1) with
              | error e =>
                rw [hw, except_error_bind] at h
                exact absurd h (by simp)
              | ok q =>
                obtain ⟨while_code, e2⟩ := q
                rw [hw, except_ok_bind] at h
                injection h with h
                rw [Prod.mk.injEq] at h
                obtain ⟨hcode, rfl⟩ := h
                rw [← hcode]
                intro line hline
                rcases List.mem_append.mp hline with hline | hline
                · exact ihs _ _ _ _ ha line hline
                · exact ihs _ _ _ _ hw line hline
          · exact absurd h (by simp [convert_stmtF])
    · intro body extra code e' h
      cases body with
      | nil =>
        injection h with h
        rw [Prod.mk.injEq] at h
        obtain ⟨hcode, -⟩ := h
        rw [← hcode]
        intro line hline
        cases hline
      | cons s rest =>
        simp only [convert_bodyF] at h
        cases hs : convert_stmtF n s extra with
        | error e =>
          rw [hs, except_error_bind] at h
          exact absurd h (by simp)
        | ok p =>
          obtain ⟨c, ret⟩ := p
          rw [hs, except_ok_bind] at h
          simp only at h
          cases hr : convert_bodyF n rest (callerAfter s extra ret) with
          | error e =>
            rw [hr, except_error_bind] at h
            exact absurd h (by simp)
          | ok q =>
            obtain ⟨cs, e2⟩ := q
            rw [hr, except_ok_bind] at h
            injection h with h
            rw [Prod.mk.injEq] at h
            obtain ⟨hcode, rfl⟩ := h
            rw [← hcode]
            intro line hline
            rcases List.mem_append.mp hline with hline | hline
            · exact ihs _ _ _ _ hs line hline
            · exact ihb _ _ _ _ hr line hline

theorem noTrap_module {body : List Stmt} {code : List String} {extra : ExtraData}
    (h : convert_module body = .ok (code, extra)) :
    ∀ line ∈ code, firstChar line ≠ some 't' := by
  suffices haux : ∀ (stmts : List Stmt) (e0 : ExtraData) code e',
      convert_module_aux stmts e0 = .ok (code, e') →
      ∀ line ∈ code, firstChar line ≠ some 't' from haux body {} code extra h
  intro stmts
  induction stmts with
  | nil =>
    intro e0 code e' h line hline
    injection h with h
    rw [Prod.mk.injEq] at h
    obtain ⟨hcode, -⟩ := h
    rw [← hcode] at hline
    cases hline
  | cons s rest ih =>
    intro e0 code e' h line hline
    rw [convert_module_aux] at h
    cases hs : convert_stmt s e0 with
    | error e =>
      rw [hs, except_error_bind] at h
      exact absurd h (by simp)
    | ok p =>
      obtain ⟨c, ret⟩ := p
      rw [hs, except_ok_bind] at h
      simp only at h
      cases hr : convert_module_aux rest ((callerAfter s e0 ret).add ret) with
      | error e =>
        rw [hr, except_error_bind] at h
        exact absurd h (by simp)
      | ok q =>
        obtain ⟨cs, e2⟩ := q
        rw [hr, except_ok_bind] at h
        injection h with h
        rw [Prod.mk.injEq] at h
        obtain ⟨hcode, rfl⟩ := h
        rw [← hcode] at hline
        rcases List.mem_append.mp hline with hline | hline
        · exact (noTrap_fuel (stmtSize s)).1 s e0 c ret hs line hline
        · exact ih _ _ _ hr line hline

/-- The pending-label slot's value after the linearization loop has
consumed a list of emission units, starting from `label`. -/
def labelFold (label : String) : List String → String
  | [] => label
  | line :: rest =>
    match labelMatch line with
    | some l => labelFold l rest
    | none => labelFold "" rest

theorem linearize_append_instr (xs : List String) (st : String) (i : String)
    (h : labelMatch i = none) :
    linearize st (xs ++ [i]) =
      linearize st xs ++ [padRight (labelFold st xs) 20 ++ i] := by
  induction xs generalizing st with
  | nil => simp only [List.nil_append, linearize, labelFold, h]
  | cons x rest ih =>
    simp only [List.cons_append, linearize, labelFold]
    cases hm : labelMatch x with
    | some l =>
      simp only [hm]
      exact ih l
    | none =>
      simp only [hm]
      exact congrArg _ (ih "")

/-! ## C5 (corrected): the terminating halt -/

/-- C5 (amended): for every module that compiles, the emitter appends
exactly one terminating halt (`trap`) after all emission units — no
generated unit equals the halt line, so it occurs exactly once — and the
halt becomes the final instruction line of the output.  Its label
column, however, is not always blank: it holds the pending label still
outstanding at the end of the unit stream (`labelFold "" code`), which
is blank only when no label is outstanding.  The original claim's
"carries no label" clause fails; see `halt_label_counterexample`. -/
theorem halt_emission (body : List Stmt) (code : List String) (extra : ExtraData)
    (h : convert_module body = .ok (code, extra)) :
    trap_line ∉ code ∧
    (code ++ [trap_line]).count trap_line = 1 ∧
    Converter.assembly_code body = .ok (String.intercalate "\n"
      ((linearize "" code ++ [padRight (labelFold "" code) 20 ++ trap_line]) ++ [""] ++
        extra.memory_data.map (fun kv =>
          Converter.comment (kv.1 ++ " data " ++ toString kv.2) "initial value" (-20)))) := by
  have hnot : trap_line ∉ code := fun hmem => noTrap_module h trap_line hmem rfl
  refine ⟨hnot, ?_, ?_⟩
  · rw [List.count_append]
    rw [List.count_eq_zero_of_not_mem hnot]
    rfl
  · unfold Converter.assembly_code
    rw [h, except_ok_bind]
    simp only
    rw [linearize_append_instr code "" trap_line rfl]
    rfl

/-- Witness for C5's amended statement on the empty module. -/
theorem halt_emission_witness :
    trap_line ∉ ([] : List String) ∧
    (([] : List String) ++ [trap_line]).count trap_line = 1 ∧
    Converter.assembly_code [] = .ok (String.intercalate "\n"
      ((linearize "" [] ++ [padRight (labelFold "" []) 20 ++ trap_line]) ++ [""] ++
        (ExtraData.mk [] [] (-1) "" "" "").memory_data.map (fun kv =>
          Converter.comment (kv.1 ++ " data " ++ toString kv.2) "initial value" (-20)))) :=
  halt_emission [] [] (ExtraData.mk [] [] (-1) "" "" "") rfl

/-- C5 counterexample: compiling `a = 4; if a > 2: a = 7` leaves the
`done2` pending label outstanding when the halt is appended, so the halt
line carries `done2` in its label column — refuting the claim that the
halt's label column is always empty. -/
theorem halt_label_counterexample :
    Converter.assembly_code
        [.assign 1 [.name "a"] (.const 4),
         .ifStmt 2 (.compare (.name "a") [.gt] [.const 2])
           [.assign 3 [.name "a"] (.const 7)]] =
      .ok (String.intercalate "\n"
        [padRight "" 20 ++ "load R1,a",
         padRight "" 20 ++ "lea R2,2",
         padRight "" 20 ++ "cmp R1,R2",
         padRight "" 20 ++ "jumpgt true2",
         padRight "" 20 ++ "jump done2",
         padRight "true2" 20 ++ Converter.comment "lea R1,7" "a = 7",
         padRight "" 20 ++ Converter.comment "store R1,a" "a = 7",
         padRight "done2" 20 ++ trap_line, "",
         Converter.comment "a data 4" "initial value" (-20)]) ∧
    padRight "done2" 20 ++ trap_line ≠ padRight "" 20 ++ trap_line := by
  constructor
  · rfl
  · decide
